import Mathlib

/-!
Shallow embedding of the element-construction engine of
`src/elements.tsx` (a React component library that builds validated HTML
document trees), together with proofs of the specified properties.

The source builds an abstract tree of nodes while threading four pieces
of construction-time context through React context providers: the
ancestry (list of enclosing tag names), the active language, the active
block/inline level, and a per-document mutable heading-rank counter.
Each factory-built element is the composition
`withLanguage (withElementLevel (withAncestry base))`, so at render time
the language step runs first, then the block/inline check, then the
content-category checks, then the base component.  The embedding mirrors
this as a recursive interpreter `renderInp` over input trees, threading
an immutable `Scope` downward and the heading rank left-to-right, and
returning `Except RenderError (Node × Nat)`.
-/

namespace Elements

/-- Block/inline level of an element (`ElementLevel` in the source,
restricted to the two values actually registered in `src/elements.tsx`). -/
inductive ElementLevel where
  | block
  | inline
  deriving DecidableEq, Repr

/-- HTML content categories (`ContentCategory` in the source). -/
inductive ContentCategory where
  | embedded
  | flow
  | formAssociated
  | heading
  | interactive
  | metadata
  | phrasing
  | sectioning
  deriving DecidableEq, Repr

/-- Tag names of the factory-built elements (`ElementName` in the source,
minus `"html"`, which is only ever emitted as a raw tag by `Document`). -/
inductive ElementName where
  | a
  | body
  | dd
  | dl
  | dt
  | div
  | h1
  | h2
  | h3
  | h4
  | h5
  | h6
  | head
  | link
  | main
  | meta
  | span
  deriving DecidableEq, Repr

/-- Attributes of an element.  `lang` and `itemProp` are the two
attributes the validation engine inspects; everything else is carried
opaquely in `extra` (key/value pairs, e.g. `charSet`, `name`, `content`,
`href`). -/
structure Attrs where
  lang : Option String := none
  itemProp : Option String := none
  extra : List (String × String) := []
  deriving DecidableEq, Repr

/-- The tag string an element name renders to. -/
def tagOf : ElementName → String
  | .a => "a"
  | .body => "body"
  | .dd => "dd"
  | .dl => "dl"
  | .dt => "dt"
  | .div => "div"
  | .h1 => "h1"
  | .h2 => "h2"
  | .h3 => "h3"
  | .h4 => "h4"
  | .h5 => "h5"
  | .h6 => "h6"
  | .head => "head"
  | .link => "link"
  | .main => "main"
  | .meta => "meta"
  | .span => "span"

/-- The static `level` registered for each tag in `src/elements.tsx`
(`ElementLevels`): `a` and `span` are inline, everything else block. -/
def levelOf : ElementName → ElementLevel
  | .a => .inline
  | .span => .inline
  | _ => .block

/-- The `contentCategories` function registered for each tag in
`src/elements.tsx` (`ElementContentCategories`).  Only `meta` inspects
its props: a truthy `itemProp` (present and non-empty, per JavaScript
truthiness) reclassifies it as flow/metadata/phrasing.  No registered
function reads the ancestry argument. -/
def contentCategoriesOf : ElementName → Attrs → List String → List ContentCategory
  | .a, _, _ => [.flow, .phrasing]
  | .body, _, _ => []
  | .dd, _, _ => [.flow]
  | .dl, _, _ => [.flow]
  | .dt, _, _ => [.flow]
  | .div, _, _ => [.flow]
  | .h1, _, _ => [.flow, .heading]
  | .h2, _, _ => [.flow, .heading]
  | .h3, _, _ => [.flow, .heading]
  | .h4, _, _ => [.flow, .heading]
  | .h5, _, _ => [.flow, .heading]
  | .h6, _, _ => [.flow, .heading]
  | .head, _, _ => []
  | .link, _, _ => [.metadata]
  | .main, _, _ => [.flow]
  | .meta, props, _ =>
    match props.itemProp with
    | none => [.metadata]
    | some s => if s = "" then [.metadata] else [.flow, .metadata, .phrasing]
  | .span, _, _ => [.flow, .phrasing]

/-- For `H1` … `H6` (whose registered component delegates to `Heading`
with a fixed level), the forced heading level; `none` for every other
element. -/
def hLevel : ElementName → Option Nat
  | .h1 => some 1
  | .h2 => some 2
  | .h3 => some 3
  | .h4 => some 4
  | .h5 => some 5
  | .h6 => some 6
  | _ => none

/-- Construction-time context, threaded down the tree.  Mirrors the
React contexts seeded by `Document`: `AncestryContext`,
`LanguageContext`, `ElementLevelContext`, `TitleContext`,
`DescriptionContext`.  The heading rank is threaded separately since the
source mutates it in document order. -/
structure Scope where
  ancestry : List String
  language : String
  blockLevel : ElementLevel
  title : String
  description : String
  deriving DecidableEq, Repr

/-- The three construction-time failures.  The source throws plain
`Error`s; the three throw sites are classified here by the error
taxonomy of the specification, each carrying the thrown message. -/
inductive RenderError where
  | InvalidContentModel (msg : String)
  | InvalidNesting (msg : String)
  | SkippedHeadingRank (msg : String)
  deriving DecidableEq, Repr

/-- Output tree node: a tag with attributes and children, or text. -/
inductive Node where
  | text (s : String)
  | elem (tag : String) (attrs : Attrs) (children : List Node)
  deriving Repr

/-- Input tree: what callers can build.  `elem` covers every
factory-built component (`Anchor`, `Body`, …, `Span`); `heading` is the
standalone `Heading` component (wrapped only in `withLanguage`, no
factory checks); `text` is a text child. -/
inductive Inp where
  | text (s : String)
  | elem (name : ElementName) (attrs : Attrs) (children : List Inp)
  | heading (level : Option Nat) (attrs : Attrs) (children : List Inp)
  deriving Repr

/-- The `withLanguage` wrapper: given the declared `lang` and the ambient
language, returns the emitted `lang` attribute and the language the
children inherit.  A falsy (`none` or empty) or redundant `lang` is
omitted and the ambient language is kept; a different `lang` is emitted
and becomes the children's ambient language. -/
def langStep : Option String → String → Option String × String
  | none, parent => (none, parent)
  | some s, parent => if s = "" ∨ s = parent then (none, parent) else (some s, s)

/-- The `withElementLevel` wrapper: given the element's own level and the
ambient level, fails when a block element appears under an inline
ancestor, and otherwise returns the level the children inherit (entering
an inline element narrows the context to inline, one way). -/
def levelStep (self parent : ElementLevel) : Except RenderError ElementLevel :=
  match parent, self with
  | .block, .inline => .ok .inline
  | .inline, .block =>
    .error (.InvalidNesting "Block element not allowed as child of inline element")
  | _, _ => .ok parent

/-- The two content-model checks of `withAncestry`, in source order:
non-flow content under `<body>` is rejected first, then non-metadata
content under `<head>`. -/
def contentCheck (cats : List ContentCategory) (ancestry : List String) :
    Except RenderError Unit :=
  if "body" ∈ ancestry ∧ ContentCategory.flow ∉ cats then
    .error (.InvalidContentModel "Cannot render non-flow content inside <body>")
  else if "head" ∈ ancestry ∧ ContentCategory.metadata ∉ cats then
    .error (.InvalidContentModel "Cannot render flow content inside <head>")
  else
    .ok ()

/-- The heading-rank state machine of `Heading`: the effective level is
the requested one (falling back to the current rank when absent or
falsy), a jump of more than one from the current rank fails with the
message exposing both values, and on success the effective level becomes
the new rank. -/
def headingStep (requested : Option Nat) (rank : Nat) : Except RenderError Nat :=
  let lvl :=
    match requested with
    | none => rank
    | some l => if l = 0 then rank else l
  if Nat.dist lvl rank > 1 then
    .error (.SkippedHeadingRank
      ("Heading level " ++ toString lvl ++ " not allowed: previous level is "
        ++ toString rank))
  else
    .ok lvl

/-- Content of the `MetaViewport` helper: interpolates width and initial
scale exactly as the source template string does. -/
def viewportContent (width : String) (initialScale : Nat) : String :=
  "width=" ++ width ++ ", initial-scale=" ++ toString initialScale

/-- Attributes of the meta node produced by `MetaCharset`. -/
def charsetAttrs : Attrs := { extra := [("charSet", "utf-8")] }

/-- Attributes of the meta node produced by `MetaViewport` at its
defaults (`width = "device-width"`, `initialScale = 1`). -/
def viewportAttrs : Attrs :=
  { extra := [("name", "viewport"), ("content", viewportContent "device-width" 1)] }

/-- Attributes of the meta node produced by `MetaDescription` for a given
description. -/
def descriptionAttrs (d : String) : Attrs :=
  { extra := [("name", "description"), ("content", d)] }

/-- Rendering of a childless factory element (used for the metadata
nodes the synthesized `Head` injects): the full `withLanguage`,
`withElementLevel`, `withAncestry` pipeline, specialized to an element
with no children, so it does not recurse. -/
def renderChildless (sc : Scope) (rank : Nat) (name : ElementName) (attrs : Attrs) :
    Except RenderError (Node × Nat) :=
  let stepped := langStep attrs.lang sc.language
  match levelStep (levelOf name) sc.blockLevel with
  | .error e => .error e
  | .ok _ =>
    match contentCheck (contentCategoriesOf name attrs sc.ancestry) sc.ancestry with
    | .error e => .error e
    | .ok _ => .ok (.elem (tagOf name) { attrs with lang := stepped.1 } [], rank)

/-- The three metadata elements the `Head` component always renders
before the title, in source order: `MetaCharset`, `MetaViewport` (at its
defaults), `MetaDescription` (from the document's description context).
They render in the `Head`'s own ambient scope, outside the providers the
wrappers put around `Head`'s caller-supplied children. -/
def renderHeadMetas (sc : Scope) (rank : Nat) : Except RenderError (List Node × Nat) :=
  match renderChildless sc rank .meta charsetAttrs with
  | .error e => .error e
  | .ok (n1, r1) =>
    match renderChildless sc r1 .meta viewportAttrs with
    | .error e => .error e
    | .ok (n2, r2) =>
      match renderChildless sc r2 .meta (descriptionAttrs sc.description) with
      | .error e => .error e
      | .ok (n3, r3) => .ok ([n1, n2, n3], r3)

mutual

/-- The renderer for one input node.  Mirrors the runtime order of the
wrapper composition `withLanguage (withElementLevel (withAncestry base))`:
the language step runs first (it never fails), then the block/inline
check, then the content-category checks, then the base component, which
renders the children under the updated scope.  The standalone `Heading`
runs only the language step before its rank check.  `H1` … `H6` delegate
to `Heading` with their fixed level; `Head` injects charset, viewport
and description metadata plus the title before its caller-supplied
children. -/
def renderInp (sc : Scope) (rank : Nat) : Inp → Except RenderError (Node × Nat)
  | .text s => .ok (.text s, rank)
  | .heading requested attrs children =>
    let stepped := langStep attrs.lang sc.language
    match headingStep requested rank with
    | .error e => .error e
    | .ok lvl =>
      match renderList { sc with language := stepped.2 } lvl children with
      | .error e => .error e
      | .ok (ns, r2) =>
        .ok (.elem ("h" ++ toString lvl) { attrs with lang := stepped.1 } ns, r2)
  | .elem name attrs children =>
    let stepped := langStep attrs.lang sc.language
    match levelStep (levelOf name) sc.blockLevel with
    | .error e => .error e
    | .ok childLevel =>
      match contentCheck (contentCategoriesOf name attrs sc.ancestry) sc.ancestry with
      | .error e => .error e
      | .ok _ =>
        let childScope : Scope :=
          { sc with
            language := stepped.2
            blockLevel := childLevel
            ancestry := sc.ancestry ++ [tagOf name] }
        match hLevel name with
        | some k =>
          match headingStep (some k) rank with
          | .error e => .error e
          | .ok lvl =>
            match renderList childScope lvl children with
            | .error e => .error e
            | .ok (ns, r2) =>
              .ok (.elem ("h" ++ toString lvl) { attrs with lang := stepped.1 } ns, r2)
        | none =>
          if name = .head then
            match renderHeadMetas sc rank with
            | .error e => .error e
            | .ok (metaNodes, r1) =>
              match renderList childScope r1 children with
              | .error e => .error e
              | .ok (ns, r2) =>
                .ok (.elem "head" { attrs with lang := stepped.1 }
                  (metaNodes ++ .elem "title" {} [.text sc.title] :: ns), r2)
          else
            match renderList childScope rank children with
            | .error e => .error e
            | .ok (ns, r2) =>
              .ok (.elem (tagOf name) { attrs with lang := stepped.1 } ns, r2)

/-- Renders a sequence of siblings left to right, threading the heading
rank through (document order). -/
def renderList (sc : Scope) (rank : Nat) : List Inp → Except RenderError (List Node × Nat)
  | [] => .ok ([], rank)
  | c :: cs =>
    match renderInp sc rank c with
    | .error e => .error e
    | .ok (n, r1) =>
      match renderList sc r1 cs with
      | .error e => .error e
      | .ok (ns, r2) => .ok (n :: ns, r2)

end

/-- Whether an input is a `Head` element (the `children[i].type === Head`
test in `Document`). -/
def isHead : Inp → Bool
  | .elem .head _ _ => true
  | _ => false

/-- Whether an input is a `Body` element (the `children[i].type === Body`
test in `Document`). -/
def isBody : Inp → Bool
  | .elem .body _ _ => true
  | _ => false

/-- The `<Head />` the assembler synthesizes. -/
def synthHead : Inp := .elem .head {} []

/-- The `<Body>{" "}</Body>` the assembler synthesizes: a body holding a
single one-space text node. -/
def spaceBody : Inp := .elem .body {} [.text " "]

/-- The `Document` assembler's normalization of its children into an
explicit head/body pair, following the `emptyBody` / `headAndBody` /
`headOnly` / `bodyOnly` / fallback cascade of the source: the
two-element head-then-body pair is kept as-is; a lone `Head` is followed
by a synthesized space body; a lone `Body` is preceded by a synthesized
head; anything else is wrapped whole in a synthesized body after a
synthesized head. -/
def normalizeChildren : List Inp → List Inp
  | [] => [synthHead, spaceBody]
  | [a] =>
    if isHead a then [a, spaceBody]
    else if isBody a then [synthHead, a]
    else [synthHead, .elem .body {} [a]]
  | [a, b] =>
    if isHead a ∧ isBody b then [a, b]
    else [synthHead, .elem .body {} [a, b]]
  | cs => [synthHead, .elem .body {} cs]

/-- The scope `Document` seeds: ancestry `["html"]`, the document's
language, block level, and the title/description contexts. -/
def initialScope (lang title description : String) : Scope :=
  { ancestry := ["html"]
    language := lang
    blockLevel := .block
    title := title
    description := description }

/-- The `Document` assembler: normalizes the children, seeds the initial
scope and a fresh heading rank of 1, and renders them under a raw
`<html>` element carrying the caller's `lang`. -/
def Document (lang title description : String) (children : List Inp) :
    Except RenderError Node :=
  match renderList (initialScope lang title description) 1 (normalizeChildren children) with
  | .error e => .error e
  | .ok (ns, _) => .ok (.elem "html" { lang := some lang } ns)

/-- Tag of an output node, if it is an element. -/
def nodeTag : Node → Option String
  | .elem t _ _ => some t
  | .text _ => none

/-- Emitted `lang` attribute of an output node, if it is an element. -/
def nodeLang : Node → Option String
  | .elem _ a _ => a.lang
  | .text _ => none

/-- The charset metadata node the synthesized head starts with. -/
def charsetNode : Node := .elem "meta" charsetAttrs []

/-- The viewport metadata node the synthesized head injects second. -/
def viewportNode : Node := .elem "meta" viewportAttrs []

/-- The description metadata node the synthesized head injects third. -/
def descriptionNode (d : String) : Node := .elem "meta" (descriptionAttrs d) []

/-- The title node the synthesized head injects fourth. -/
def titleNode (t : String) : Node := .elem "title" {} [.text t]

/-- A sequence of standalone `Heading` renders with explicit levels. -/
def headingInps (ls : List Nat) : List Inp :=
  ls.map fun l => .heading (some l) {} []

/-- The output nodes a successful sequence of explicit-level headings
produces. -/
def headingNodes (ls : List Nat) : List Node :=
  ls.map fun l => .elem ("h" ++ toString l) {} []

/-- Arguments of one `Document` invocation. -/
structure DocArgs where
  lang : String
  title : String
  description : String
  children : List Inp

/-- Sequential rendering of several documents, one after the other. -/
def renderDocuments (ds : List DocArgs) : List (Except RenderError Node) :=
  ds.map fun d => Document d.lang d.title d.description d.children

/-- Scope seen by the children of the document body (ancestry
`["html", "body"]`, block level, document language). -/
def bodyScope (lang title desc : String) : Scope :=
  { ancestry := ["html", "body"]
    language := lang
    blockLevel := .block
    title := title
    description := desc }

/-- Transcription of the specification's step condition: every level is
within one of its predecessor, the predecessor of the first being 1. -/
def stepOK : Nat → List Nat → Bool
  | _, [] => true
  | prev, l :: ls => decide (Nat.dist l prev ≤ 1) && stepOK l ls

/-- Transcription of the specification's first violating index: the
first pair (previous rank, attempted level) whose distance exceeds 1,
scanning left to right. -/
def firstViol : Nat → List Nat → Option (Nat × Nat)
  | _, [] => none
  | prev, l :: ls => if 1 < Nat.dist l prev then some (prev, l) else firstViol l ls

/-- The heading-rank state machine folded over a list of explicitly
requested levels: the final rank on success, or the first
`SkippedHeadingRank` failure. -/
def headingOutcome : Nat → List Nat → Except RenderError Nat
  | rank, [] => .ok rank
  | rank, l :: ls =>
    match headingStep (some l) rank with
    | .error e => .error e
    | .ok lvl => headingOutcome lvl ls

end Elements

namespace Elements

/-! Helper lemmas about the individual wrapper steps and inversion
principles for the renderer, shared by the property proofs below. -/

theorem langStep_none (parent : String) : langStep none parent = (none, parent) := rfl

theorem langStep_self (parent : String) : langStep (some parent) parent = (none, parent) := by
  simp [langStep]

theorem langStep_diff (s parent : String) (h1 : s ≠ "") (h2 : s ≠ parent) :
    langStep (some s) parent = (some s, s) := by
  simp [langStep, h1, h2]

theorem levelStep_block (l : ElementLevel) : levelStep l .block = .ok l := by
  cases l <;> rfl

theorem levelStep_inline_self (p : ElementLevel) : levelStep .inline p = .ok .inline := by
  cases p <;> rfl

theorem contentCategoriesOf_lang (name : ElementName) (attrs : Attrs) (x : Option String)
    (anc : List String) :
    contentCategoriesOf name { attrs with lang := x } anc =
      contentCategoriesOf name attrs anc := by
  cases name <;> rfl

theorem renderList_cons_ok {sc : Scope} {rank : Nat} {c : Inp} {cs : List Inp}
    {ns : List Node} {r' : Nat}
    (h : renderList sc rank (c :: cs) = .ok (ns, r')) :
    ∃ n r1 ns1, renderInp sc rank c = .ok (n, r1) ∧
      renderList sc r1 cs = .ok (ns1, r') ∧ ns = n :: ns1 := by
  rw [renderList] at h
  split at h
  · exact absurd h (by simp)
  · rename_i n r1 heq1
    split at h
    · exact absurd h (by simp)
    · rename_i ns1 r2 heq2
      simp only [Except.ok.injEq, Prod.mk.injEq] at h
      exact ⟨n, r1, ns1, heq1, by rw [heq2, h.2], h.1.symm⟩

theorem renderHeadMetas_ok {sc : Scope} {rank : Nat} {p : List Node × Nat}
    (h : renderHeadMetas sc rank = .ok p) :
    p = ([charsetNode, viewportNode, descriptionNode sc.description], rank) := by
  rw [renderHeadMetas] at h
  split at h
  · exact absurd h (by simp)
  · rename_i n1 r1 heq1
    split at h
    · exact absurd h (by simp)
    · rename_i n2 r2 heq2
      split at h
      · exact absurd h (by simp)
      · rename_i n3 r3 heq3
        rw [renderChildless] at heq1 heq2 heq3
        split at heq1
        · exact absurd heq1 (by simp)
        · split at heq1
          · exact absurd heq1 (by simp)
          · split at heq2
            · exact absurd heq2 (by simp)
            · split at heq2
              · exact absurd heq2 (by simp)
              · split at heq3
                · exact absurd heq3 (by simp)
                · split at heq3
                  · exact absurd heq3 (by simp)
                  · simp only [Except.ok.injEq, Prod.mk.injEq] at heq1 heq2 heq3 h
                    obtain ⟨hn1, hr1⟩ := heq1
                    obtain ⟨hn2, hr2⟩ := heq2
                    obtain ⟨hn3, hr3⟩ := heq3
                    subst hr1 hr2 hr3
                    rw [← h, ← hn1, ← hn2, ← hn3]
                    rfl

theorem renderInp_elem_attrs {sc : Scope} {rank : Nat} {name : ElementName} {attrs : Attrs}
    {cs : List Inp} {n : Node} {r' : Nat}
    (h : renderInp sc rank (.elem name attrs cs) = .ok (n, r')) :
    ∃ tag ns, n = .elem tag { attrs with lang := (langStep attrs.lang sc.language).1 } ns := by
  rw [renderInp] at h
  dsimp only at h
  split at h
  · exact absurd h (by simp)
  · split at h
    · exact absurd h (by simp)
    · split at h
      · split at h
        · exact absurd h (by simp)
        · split at h
          · exact absurd h (by simp)
          · rename_i lvl hstep ns r2 heq
            simp only [Except.ok.injEq, Prod.mk.injEq] at h
            exact ⟨_, ns, by rw [← h.1]⟩
      · split at h
        · split at h
          · exact absurd h (by simp)
          · split at h
            · exact absurd h (by simp)
            · rename_i metaNodes r1 heq1 ns r2 heq2
              simp only [Except.ok.injEq, Prod.mk.injEq] at h
              exact ⟨_, _, by rw [← h.1]⟩
        · split at h
          · exact absurd h (by simp)
          · rename_i ns r2 heq
            simp only [Except.ok.injEq, Prod.mk.injEq] at h
            exact ⟨_, ns, by rw [← h.1]⟩

theorem renderInp_head_ok {sc : Scope} {rank : Nat} {a : Attrs} {cs : List Inp}
    {n : Node} {r' : Nat}
    (h : renderInp sc rank (.elem .head a cs) = .ok (n, r')) :
    ∃ a2 rest, n = .elem "head" a2
      (charsetNode :: viewportNode :: descriptionNode sc.description ::
        titleNode sc.title :: rest) := by
  rw [renderInp] at h
  simp only [hLevel, reduceIte] at h
  split at h
  · exact absurd h (by simp)
  · split at h
    · exact absurd h (by simp)
    · split at h
      · exact absurd h (by simp)
      · rename_i p1 metaNodes r1 heq1
        split at h
        · exact absurd h (by simp)
        · rename_i ns r2 heq2
          have hm := renderHeadMetas_ok heq1
          simp only [Prod.mk.injEq] at hm
          simp only [Except.ok.injEq, Prod.mk.injEq] at h
          exact ⟨{ a with lang := (langStep a.lang sc.language).1 }, ns,
            by rw [← h.1, hm.1]; rfl⟩

theorem renderInp_body_ok {sc : Scope} {rank : Nat} {a : Attrs} {cs : List Inp}
    {n : Node} {r' : Nat}
    (h : renderInp sc rank (.elem .body a cs) = .ok (n, r')) :
    ∃ a2 ch, n = .elem "body" a2 ch := by
  rw [renderInp] at h
  dsimp only at h
  simp only [hLevel, reduceIte] at h
  split at h
  case _ => exact absurd h (by simp)
  case _ =>
    split at h
    case _ => exact absurd h (by simp)
    case _ =>
      split at h
      case isTrue hne => exact absurd hne (by decide)
      case isFalse _ =>
        split at h
        case _ => exact absurd h (by simp)
        case _ ns r2 heq =>
          simp only [Except.ok.injEq, Prod.mk.injEq] at h
          exact ⟨{ a with lang := (langStep a.lang sc.language).1 }, ns, h.1.symm⟩

theorem isHead_eq {a : Inp} (h : isHead a = true) : ∃ ha hcs, a = .elem .head ha hcs := by
  match a, h with
  | .elem .head ha hcs, _ => exact ⟨ha, hcs, rfl⟩

theorem isBody_eq {a : Inp} (h : isBody a = true) : ∃ ba bcs, a = .elem .body ba bcs := by
  match a, h with
  | .elem .body ba bcs, _ => exact ⟨ba, bcs, rfl⟩

theorem normalizeChildren_shape (cs : List Inp) :
    ∃ ha hcs ba bcs, normalizeChildren cs =
      [.elem .head ha hcs, .elem .body ba bcs] := by
  match cs with
  | [] => exact ⟨{}, [], {}, [.text " "], rfl⟩
  | [a] =>
    rw [normalizeChildren]
    by_cases h1 : isHead a
    · rw [if_pos h1]
      obtain ⟨ha, hcs, rfl⟩ := isHead_eq h1
      exact ⟨ha, hcs, {}, [.text " "], rfl⟩
    · rw [if_neg h1]
      by_cases h2 : isBody a
      · rw [if_pos h2]
        obtain ⟨ba, bcs, rfl⟩ := isBody_eq h2
        exact ⟨{}, [], ba, bcs, rfl⟩
      · rw [if_neg h2]
        exact ⟨{}, [], {}, [a], rfl⟩
  | [a, b] =>
    rw [normalizeChildren]
    by_cases h : isHead a ∧ isBody b
    · rw [if_pos h]
      obtain ⟨ha, hcs, rfl⟩ := isHead_eq h.1
      obtain ⟨ba, bcs, rfl⟩ := isBody_eq h.2
      exact ⟨ha, hcs, ba, bcs, rfl⟩
    · rw [if_neg h]
      exact ⟨{}, [], {}, [a, b], rfl⟩
  | a :: b :: c :: rest => exact ⟨{}, [], {}, a :: b :: c :: rest, rfl⟩

theorem headingStep_ok_eq {l rank lvl : Nat} (h0 : l ≠ 0)
    (h : headingStep (some l) rank = .ok lvl) : lvl = l := by
  rw [headingStep] at h
  simp only [h0, if_false, reduceIte] at h
  split at h
  · exact absurd h (by simp)
  · simp only [Except.ok.injEq] at h
    exact h.symm

theorem headingStep_ok_of_close {l rank : Nat} (h0 : l ≠ 0) (hd : Nat.dist l rank ≤ 1) :
    headingStep (some l) rank = .ok l := by
  have hnd : ¬ Nat.dist l rank > 1 := by omega
  simp [headingStep, h0, hnd]

theorem headingStep_fail_of_far {l rank : Nat} (h0 : l ≠ 0) (hd : 1 < Nat.dist l rank) :
    headingStep (some l) rank = .error (.SkippedHeadingRank
      ("Heading level " ++ toString l ++ " not allowed: previous level is "
        ++ toString rank)) := by
  have hgt : Nat.dist l rank > 1 := by omega
  simp [headingStep, h0, hgt]

theorem renderList_headings (sc : Scope) (ls : List Nat) (rank : Nat)
    (h : ∀ l ∈ ls, l ≠ 0) :
    renderList sc rank (headingInps ls) =
      match headingOutcome rank ls with
      | .error e => .error e
      | .ok r2 => .ok (headingNodes ls, r2) := by
  induction ls generalizing rank with
  | nil => rfl
  | cons l ls ih =>
    have hl0 : l ≠ 0 := h l (by simp)
    have hls : ∀ x ∈ ls, x ≠ 0 := fun x hx => h x (by simp [hx])
    show renderList sc rank (.heading (some l) {} [] :: headingInps ls) = _
    rw [renderList, renderInp, headingOutcome]
    dsimp only
    cases hstep : headingStep (some l) rank with
    | error e => rfl
    | ok lvl =>
      have hlvl : lvl = l := headingStep_ok_eq hl0 hstep
      subst hlvl
      simp only [renderList]
      rw [ih lvl hls]
      cases houtc : headingOutcome lvl ls with
      | error e => rfl
      | ok r2 => simp [headingNodes, langStep]

theorem headingOutcome_ok (ls : List Nat) (rank : Nat) (h0 : ∀ l ∈ ls, l ≠ 0)
    (h : stepOK rank ls = true) : ∃ r2, headingOutcome rank ls = .ok r2 := by
  induction ls generalizing rank with
  | nil => exact ⟨rank, rfl⟩
  | cons l ls ih =>
    rw [stepOK, Bool.and_eq_true, decide_eq_true_eq] at h
    rw [headingOutcome, headingStep_ok_of_close (h0 l (List.mem_cons_self l ls)) h.1]
    exact ih l (fun x hx => h0 x (List.mem_cons_of_mem _ hx)) h.2

theorem headingOutcome_fail (ls : List Nat) (rank : Nat) (h0 : ∀ l ∈ ls, l ≠ 0)
    (h : stepOK rank ls = false) :
    ∃ p a, firstViol rank ls = some (p, a) ∧ headingOutcome rank ls =
      .error (.SkippedHeadingRank
        ("Heading level " ++ toString a ++ " not allowed: previous level is "
          ++ toString p)) := by
  induction ls generalizing rank with
  | nil => exact absurd h (by simp [stepOK])
  | cons l ls ih =>
    rw [stepOK, Bool.and_eq_false_iff] at h
    by_cases hd : Nat.dist l rank ≤ 1
    · have h2 : stepOK l ls = false := by
        rcases h with h | h
        · exact absurd hd (by simpa using h)
        · exact h
      obtain ⟨p, a, hv, he⟩ := ih l (fun x hx => h0 x (List.mem_cons_of_mem _ hx)) h2
      refine ⟨p, a, ?_, ?_⟩
      · rw [firstViol, if_neg (by omega)]
        exact hv
      · rw [headingOutcome, headingStep_ok_of_close (h0 l (List.mem_cons_self l ls)) hd]
        exact he
    · refine ⟨rank, l, ?_, ?_⟩
      · rw [firstViol, if_pos (by omega)]
      · rw [headingOutcome, headingStep_fail_of_far (h0 l (List.mem_cons_self l ls)) (by omega)]

theorem normalizeChildren_headings (l : Nat) (ls : List Nat) :
    normalizeChildren (headingInps (l :: ls)) =
      [synthHead, .elem .body {} (headingInps (l :: ls))] := by
  cases ls with
  | nil => rfl
  | cons l2 ls2 =>
    cases ls2 with
    | nil => rfl
    | cons l3 ls3 => rfl

theorem document_headings_cons (lang title desc : String) (l : Nat) (ls : List Nat)
    (h0 : ∀ x ∈ l :: ls, x ≠ 0) :
    Document lang title desc (headingInps (l :: ls)) =
      match headingOutcome 1 (l :: ls) with
      | .error e => .error e
      | .ok _ => .ok (.elem "html" { lang := some lang }
          [.elem "head" {} [charsetNode, viewportNode, descriptionNode desc, titleNode title],
           .elem "body" {} (headingNodes (l :: ls))]) := by
  have hH : renderInp (initialScope lang title desc) 1 synthHead =
      .ok (.elem "head" {}
        [charsetNode, viewportNode, descriptionNode desc, titleNode title], 1) := rfl
  have hBody : ∀ (r : Nat) (xs : List Inp),
      renderInp (initialScope lang title desc) r (.elem .body {} xs) =
        match renderList (bodyScope lang title desc) r xs with
        | .error e => .error e
        | .ok (ns, r2) => .ok (.elem "body" {} ns, r2) := fun r xs => rfl
  rw [Document, normalizeChildren_headings]
  rw [renderList, hH]
  dsimp only
  rw [renderList, hBody 1 (headingInps (l :: ls))]
  rw [renderList_headings _ _ _ h0]
  cases houtc : headingOutcome 1 (l :: ls) with
  | error e => rfl
  | ok r2 => rfl

end Elements

namespace Elements

/-- Claim C1: for a sequence of explicit-level heading renders inside one
document, construction succeeds exactly when every level is within one
step of the previous (the rank before the first heading being 1);
otherwise it fails at the first violating index with
`SkippedHeadingRank`, whose message carries both the attempted level and
the prior rank. -/
theorem heading_monotonic_step (lang title desc : String) (ls : List Nat)
    (h : ∀ l ∈ ls, 1 ≤ l ∧ l ≤ 6) :
    (stepOK 1 ls = true → ∃ n, Document lang title desc (headingInps ls) = .ok n)
    ∧ (stepOK 1 ls = false → ∃ p a, firstViol 1 ls = some (p, a) ∧
        Document lang title desc (headingInps ls) = .error (.SkippedHeadingRank
          ("Heading level " ++ toString a ++ " not allowed: previous level is "
            ++ toString p))) := by
  have h0 : ∀ l ∈ ls, l ≠ 0 := fun l hl => by have := (h l hl).1; omega
  cases ls with
  | nil =>
    constructor
    · intro _
      exact ⟨_, rfl⟩
    · intro hfalse
      exact absurd hfalse (by simp [stepOK])
  | cons l ls =>
    have hdoc := document_headings_cons lang title desc l ls h0
    constructor
    · intro hok
      obtain ⟨r2, hr2⟩ := headingOutcome_ok _ _ h0 hok
      rw [hdoc, hr2]
      exact ⟨_, rfl⟩
    · intro hfail
      obtain ⟨p, a, hv, he⟩ := headingOutcome_fail _ _ h0 hfail
      exact ⟨p, a, hv, by rw [hdoc, he]⟩

/-- Witness for claim C1: the level sequence 1, 3 violates the step
condition and fails with the message naming level 3 and prior rank 1,
while 1, 2 satisfies it and succeeds. -/
theorem heading_monotonic_step_witness :
    (stepOK 1 [1, 3] = false → ∃ p a, firstViol 1 [1, 3] = some (p, a) ∧
      Document "en-US" "test" "testing" (headingInps [1, 3]) = .error (.SkippedHeadingRank
        ("Heading level " ++ toString a ++ " not allowed: previous level is "
          ++ toString p)))
    ∧ stepOK 1 [1, 3] = false
    ∧ (stepOK 1 [1, 2] = true →
        ∃ n, Document "en-US" "test" "testing" (headingInps [1, 2]) = .ok n)
    ∧ stepOK 1 [1, 2] = true :=
  ⟨(heading_monotonic_step "en-US" "test" "testing" [1, 3] (by decide)).2, by decide,
   (heading_monotonic_step "en-US" "test" "testing" [1, 2] (by decide)).1, by decide⟩

/-- Claim C2: every successfully assembled document is an `html` element
carrying the caller's `lang`, whose sole children are exactly one head
element followed by exactly one body element. -/
theorem document_has_head_and_body (lang title desc : String) (cs : List Inp) (n : Node)
    (h : Document lang title desc cs = .ok n) :
    ∃ hn bn, n = .elem "html" { lang := some lang } [hn, bn] ∧
      nodeTag hn = some "head" ∧ nodeTag bn = some "body" := by
  rw [Document] at h
  obtain ⟨ha, hcs, ba, bcs, hnorm⟩ := normalizeChildren_shape cs
  rw [hnorm] at h
  split at h
  case _ => exact absurd h (by simp)
  case _ ns r heq =>
    obtain ⟨n1, r1, ns1, h1, h2, h3⟩ := renderList_cons_ok heq
    obtain ⟨n2, r2, ns2, h4, h5, h6⟩ := renderList_cons_ok h2
    rw [renderList] at h5
    simp only [Except.ok.injEq, Prod.mk.injEq] at h5
    obtain ⟨a2, rest, hhn⟩ := renderInp_head_ok h1
    obtain ⟨a3, ch, hbn⟩ := renderInp_body_ok h4
    simp only [Except.ok.injEq] at h
    refine ⟨n1, n2, ?_, by rw [hhn]; rfl, by rw [hbn]; rfl⟩
    rw [← h, h3, h6, ← h5.1]

/-- Witness for claim C2: the childless document instantiates the
head/body shape theorem. -/
theorem document_has_head_and_body_witness :
    ∃ n, Document "en-US" "test" "testing" [] = .ok n ∧
      ∃ hn bn, n = .elem "html" { lang := some "en-US" } [hn, bn] ∧
        nodeTag hn = some "head" ∧ nodeTag bn = some "body" :=
  ⟨_, rfl, document_has_head_and_body "en-US" "test" "testing" [] _ rfl⟩

/-- Claim C3: every successfully assembled document's head begins, in
order, with the charset metadata node, the viewport metadata node with
the responsive default content, the description metadata node carrying
the given description, and the title node carrying the given title;
caller-supplied head content follows after these, as the concrete
canonical-link instance shows. -/
theorem head_injected_contents :
    (∀ lang title desc cs n, Document lang title desc cs = .ok n →
      ∃ ha rest bn, n = .elem "html" { lang := some lang }
        [.elem "head" ha
          (charsetNode :: viewportNode :: descriptionNode desc :: titleNode title :: rest),
         bn])
    ∧ (Document "en-US" "test" "testing"
        [.elem .head {}
          [.elem .link { extra := [("rel", "canonical"), ("href", "https://example.org")] } []],
         .elem .body {} [.text "x"]]
      = .ok (.elem "html" { lang := some "en-US" }
          [.elem "head" {}
            [charsetNode, viewportNode, descriptionNode "testing", titleNode "test",
             .elem "link" { extra := [("rel", "canonical"), ("href", "https://example.org")] } []],
           .elem "body" {} [.text "x"]])) := by
  refine ⟨fun lang title desc cs n h => ?_, rfl⟩
  rw [Document] at h
  obtain ⟨ha, hcs, ba, bcs, hnorm⟩ := normalizeChildren_shape cs
  rw [hnorm] at h
  split at h
  case _ => exact absurd h (by simp)
  case _ ns r heq =>
    obtain ⟨n1, r1, ns1, h1, h2, h3⟩ := renderList_cons_ok heq
    obtain ⟨n2, r2, ns2, h4, h5, h6⟩ := renderList_cons_ok h2
    rw [renderList] at h5
    simp only [Except.ok.injEq, Prod.mk.injEq] at h5
    obtain ⟨a2, rest, hhn⟩ := renderInp_head_ok h1
    simp only [Except.ok.injEq] at h
    refine ⟨a2, rest, n2, ?_⟩
    rw [← h, h3, h6, ← h5.1, hhn]
    rfl

/-- Witness for claim C3: the head-contents theorem instantiated at a
concrete childless document. -/
theorem head_injected_contents_witness :
    ∃ n, Document "sv-SE" "titel" "beskrivning" [] = .ok n ∧
      ∃ ha rest bn, n = .elem "html" { lang := some "sv-SE" }
        [.elem "head" ha
          (charsetNode :: viewportNode :: descriptionNode "beskrivning" ::
            titleNode "titel" :: rest), bn] :=
  ⟨_, rfl, head_injected_contents.1 "sv-SE" "titel" "beskrivning" [] _ rfl⟩

/-- Claim C4: an element declaring the ambient language renders exactly
like the same element without a `lang` attribute (so the attribute is
omitted and descendants keep the ambient language); an element declaring
a different language keeps the attribute on the emitted node; and in the
specification's scenario a Swedish heading inside an English document
carries its `lang` while the nested English span re-emits `lang` because
it differs from the now-active Swedish. -/
theorem language_inheritance :
    (∀ sc r name attrs cs, attrs.lang = some sc.language →
      renderInp sc r (.elem name attrs cs) =
        renderInp sc r (.elem name { attrs with lang := none } cs))
    ∧ (∀ sc r name attrs cs L n rr, attrs.lang = some L → L ≠ "" → L ≠ sc.language →
      renderInp sc r (.elem name attrs cs) = .ok (n, rr) → nodeLang n = some L)
    ∧ (Document "en-US" "test" "testing"
        [.heading none { lang := some "sv-SE" }
          [.elem .span { lang := some "en-US" } [.text "title"]]]
      = .ok (.elem "html" { lang := some "en-US" }
          [.elem "head" {} [charsetNode, viewportNode, descriptionNode "testing", titleNode "test"],
           .elem "body" {}
             [.elem "h1" { lang := some "sv-SE" }
               [.elem "span" { lang := some "en-US" } [.text "title"]]]])) := by
  refine ⟨fun sc r name attrs cs hl => ?_,
    fun sc r name attrs cs L n rr hl h1 h2 hok => ?_, rfl⟩
  · rw [renderInp, renderInp]
    have hs : langStep attrs.lang sc.language = (none, sc.language) := by
      rw [hl]; exact langStep_self _
    dsimp only
    rw [hs, langStep_none]
    simp only [contentCategoriesOf_lang]
  · obtain ⟨tag, ns, hn⟩ := renderInp_elem_attrs hok
    rw [hn, nodeLang]
    rw [hl, langStep_diff L sc.language h1 h2]

/-- Witness for claim C4: the omission equivalence at a span declaring
the ambient language, and the retention of a differing `lang` on an
emitted span node. -/
theorem language_inheritance_witness :
    (renderInp (bodyScope "en-US" "test" "testing") 1 (.elem .span { lang := some "en-US" } []) =
      renderInp (bodyScope "en-US" "test" "testing") 1 (.elem .span { lang := none } []))
    ∧ nodeLang (.elem "span" { lang := some "sv-SE" } []) = some "sv-SE" :=
  ⟨language_inheritance.1 (bodyScope "en-US" "test" "testing") 1 .span
      { lang := some "en-US" } [] rfl,
   language_inheritance.2.1 (bodyScope "en-US" "test" "testing") 1 .span
      { lang := some "sv-SE" } [] "sv-SE" (.elem "span" { lang := some "sv-SE" } []) 1
      rfl (by decide) (by decide) rfl⟩

/-- Claim C5: a block-level element constructed in an inline ambient
context fails with `InvalidNesting`; descending into an inline element
never fails on this rule and always yields an inline ambient context for
the children (so the block-to-inline transition is one way, and the
ambient context never returns from inline to block). -/
theorem block_inline_nesting :
    (∀ sc r name attrs cs, sc.blockLevel = .inline → levelOf name = .block →
      renderInp sc r (.elem name attrs cs) =
        .error (.InvalidNesting "Block element not allowed as child of inline element"))
    ∧ (∀ p, levelStep .inline p = .ok .inline)
    ∧ (∀ l p c, levelStep l p = .ok c → p = .inline → c = .inline) := by
  refine ⟨fun sc r name attrs cs hb hl => ?_, levelStep_inline_self,
    fun l p c h hp => ?_⟩
  · rw [renderInp]
    dsimp only
    rw [hl, hb]
    rfl
  · subst hp
    cases l <;> simp_all [levelStep]

/-- Witness for claim C5: a div under an inline ambient context is
rejected, and the inline level step is instantiated concretely. -/
theorem block_inline_nesting_witness :
    renderInp { ancestry := ["html", "body", "span"]
                language := "en-US"
                blockLevel := .inline
                title := "test"
                description := "testing" } 1
      (.elem .div {} []) =
      .error (.InvalidNesting "Block element not allowed as child of inline element")
    ∧ levelStep .inline .block = .ok .inline
    ∧ ElementLevel.inline = .inline :=
  ⟨block_inline_nesting.1 _ 1 .div {} [] rfl rfl,
   block_inline_nesting.2.1 .block,
   block_inline_nesting.2.2 .inline .inline .inline rfl rfl⟩

end Elements

namespace Elements

/-- Counterexample to claim C6 as stated: a `link` (whose content
categories lack flow) constructed as a descendant of body — through a
span — fails, but with `InvalidNesting`, not `InvalidContentModel`,
because the block/inline check runs before the content-category check
and the span has made the ambient context inline. -/
theorem content_model_counterexample :
    Document "en-US" "test" "testing" [.elem .span {} [.elem .link {} []]]
        = .error (.InvalidNesting "Block element not allowed as child of inline element")
    ∧ ContentCategory.flow ∉ contentCategoriesOf .link {} ["html", "body", "span"]
    ∧ "body" ∈ (["html", "body", "span"] : List String) :=
  ⟨rfl, by decide, by simp⟩

/-- Claim C6 as amended: in a block ambient context, an element whose
content categories lack metadata fails with `InvalidContentModel` as a
descendant of head, and an element whose content categories lack flow
fails with the non-flow-inside-body `InvalidContentModel` as a
descendant of body (in an inline ambient context a block-level element
is instead rejected by `InvalidNesting` first); a `meta` carrying a
non-empty `itemProp` is classified as flow/metadata/phrasing content and
is accepted inside body. -/
theorem content_model_checks :
    (∀ sc r name attrs cs, sc.blockLevel = .block → "head" ∈ sc.ancestry →
      ContentCategory.metadata ∉ contentCategoriesOf name attrs sc.ancestry →
      ∃ msg, renderInp sc r (.elem name attrs cs) = .error (.InvalidContentModel msg))
    ∧ (∀ sc r name attrs cs, sc.blockLevel = .block → "body" ∈ sc.ancestry →
      ContentCategory.flow ∉ contentCategoriesOf name attrs sc.ancestry →
      renderInp sc r (.elem name attrs cs) =
        .error (.InvalidContentModel "Cannot render non-flow content inside <body>"))
    ∧ (∃ n, Document "en-US" "test" "testing"
        [.elem .body {}
          [.elem .meta { itemProp := some "name", extra := [("content", "The Castle")] } []]]
        = .ok n)
    ∧ (∀ s anc attrs, s ≠ "" → attrs.itemProp = some s →
        contentCategoriesOf .meta attrs anc = [.flow, .metadata, .phrasing]) := by
  refine ⟨fun sc r name attrs cs hb hh hm => ?_, fun sc r name attrs cs hb hbody hf => ?_,
    ⟨_, rfl⟩, fun s anc attrs hs hip => ?_⟩
  · rw [renderInp]
    dsimp only
    rw [hb, levelStep_block]
    by_cases hcase : "body" ∈ sc.ancestry ∧
        ContentCategory.flow ∉ contentCategoriesOf name attrs sc.ancestry
    · refine ⟨"Cannot render non-flow content inside <body>", ?_⟩
      rw [contentCheck, if_pos hcase]
    · refine ⟨"Cannot render flow content inside <head>", ?_⟩
      rw [contentCheck, if_neg hcase, if_pos ⟨hh, hm⟩]
  · rw [renderInp]
    dsimp only
    rw [hb, levelStep_block, contentCheck, if_pos ⟨hbody, hf⟩]
  · rw [contentCategoriesOf, hip]
    simp [hs]

/-- Witness for claim C6: an anchor under head is rejected by the
content model, a link directly under body is rejected with the non-flow
message, and the `itemProp` reclassification is instantiated. -/
theorem content_model_checks_witness :
    (∃ msg, renderInp { ancestry := ["html", "head"]
                        language := "en-US"
                        blockLevel := .block
                        title := "test"
                        description := "testing" } 1
        (.elem .a {} []) = .error (.InvalidContentModel msg))
    ∧ renderInp (bodyScope "en-US" "test" "testing") 1 (.elem .link {} []) =
        .error (.InvalidContentModel "Cannot render non-flow content inside <body>")
    ∧ contentCategoriesOf .meta { itemProp := some "name" } ["html", "body"] =
        [.flow, .metadata, .phrasing] :=
  ⟨content_model_checks.1 _ 1 .a {} [] rfl (by decide) (by decide),
   content_model_checks.2.1 _ 1 .link {} [] rfl (by decide) (by decide),
   content_model_checks.2.2.2 "name" ["html", "body"] _ (by decide) rfl⟩

/-- Counterexample to claim C7 as stated: a `meta` without `itemProp`
inside a span inside body violates both the content-category rule (its
categories lack flow under body) and the block/inline rule (it is
block-level in an inline context), and the failure raised is
`InvalidNesting`, not `InvalidContentModel` — the wrapper composition
runs the block/inline check before the content-category check. -/
theorem check_order_counterexample :
    Document "en-US" "test" "testing"
        [.elem .span {}
          [.elem .meta { extra := [("name", "og:title"), ("content", "hello")] } []]]
      = .error (.InvalidNesting "Block element not allowed as child of inline element")
    ∧ ContentCategory.flow ∉
        contentCategoriesOf .meta { extra := [("name", "og:title"), ("content", "hello")] }
          ["html", "body", "span"]
    ∧ levelOf .meta = .block :=
  ⟨rfl, by decide, rfl⟩

/-- Claim C7 as amended: the factory pipeline runs the language step
first (it never fails), then the block/inline check, then the
content-category check, so an element violating both the
content-category rule and the block/inline rule fails with
`InvalidNesting`, not `InvalidContentModel`. -/
theorem check_order_nesting_preempts :
    ∀ sc r name attrs cs, "body" ∈ sc.ancestry →
      ContentCategory.flow ∉ contentCategoriesOf name attrs sc.ancestry →
      sc.blockLevel = .inline → levelOf name = .block →
      renderInp sc r (.elem name attrs cs) =
        .error (.InvalidNesting "Block element not allowed as child of inline element") := by
  intro sc r name attrs cs _ _ hb hl
  rw [renderInp]
  dsimp only
  rw [hl, hb]
  rfl

/-- Witness for claim C7: the dual-violation instance — a plain `meta`
in an inline context under body — is rejected by the nesting rule. -/
theorem check_order_nesting_preempts_witness :
    renderInp { ancestry := ["html", "body", "span"]
                language := "en-US"
                blockLevel := .inline
                title := "test"
                description := "testing" } 1
      (.elem .meta { extra := [("name", "og:title")] } []) =
      .error (.InvalidNesting "Block element not allowed as child of inline element") :=
  check_order_nesting_preempts _ 1 .meta { extra := [("name", "og:title")] } []
    (by decide) (by decide) rfl rfl

/-- Counterexample to claim C8 as stated: a document given a single
`Head` child does not synthesize an empty body; the synthesized body
contains exactly one single-space text node. -/
theorem head_only_space_body_counterexample :
    Document "en-US" "test" "testing" [.elem .head {} []] =
      .ok (.elem "html" { lang := some "en-US" }
        [.elem "head" {} [charsetNode, viewportNode, descriptionNode "testing", titleNode "test"],
         .elem "body" {} [.text " "]]) := rfl

/-- Claim C8 as amended: with no children the assembler synthesizes a
head plus a body holding exactly one single-space text node; with a
single `Head` child it keeps that head and synthesizes a body holding
the same single-space text node (not an empty body); with a single
`Body` child it synthesizes an empty head and keeps the given body. -/
theorem document_normalization :
    (∀ l t d, Document l t d [] = .ok (.elem "html" { lang := some l }
      [.elem "head" {} [charsetNode, viewportNode, descriptionNode d, titleNode t],
       .elem "body" {} [.text " "]]))
    ∧ normalizeChildren [] = [synthHead, spaceBody]
    ∧ (∀ a cs, normalizeChildren [.elem .head a cs] = [.elem .head a cs, spaceBody])
    ∧ (∀ a cs, normalizeChildren [.elem .body a cs] = [synthHead, .elem .body a cs]) := by
  refine ⟨fun l t d => rfl, rfl, fun a cs => ?_, fun a cs => ?_⟩
  · rw [normalizeChildren, if_pos]
    exact rfl
  · rw [normalizeChildren, if_neg, if_pos]
    · exact rfl
    · simp [isHead]

/-- Witness for claim C8: the normalization equations instantiated at
concrete children. -/
theorem document_normalization_witness :
    Document "sv-SE" "titel" "beskrivning" [] = .ok (.elem "html" { lang := some "sv-SE" }
      [.elem "head" {}
        [charsetNode, viewportNode, descriptionNode "beskrivning", titleNode "titel"],
       .elem "body" {} [.text " "]])
    ∧ normalizeChildren [.elem .head {} [.text "x"]] =
        [.elem .head {} [.text "x"], spaceBody]
    ∧ normalizeChildren [.elem .body {} [.text "y"]] =
        [synthHead, .elem .body {} [.text "y"]] :=
  ⟨document_normalization.1 "sv-SE" "titel" "beskrivning",
   document_normalization.2.2.1 {} [.text "x"],
   document_normalization.2.2.2 {} [.text "y"]⟩

/-- Claim C9: sequential rendering of documents is pointwise equal to
rendering each alone — the heading-rank counter is seeded to 1 inside
each `Document` invocation (mirroring the per-invocation ref in the
source), so no heading-rank state flows between invocations and the
outcome of any document after arbitrary predecessors equals its
standalone render. -/
theorem heading_rank_isolation :
    (∀ d1 d2 : DocArgs, renderDocuments [d1, d2] =
      [Document d1.lang d1.title d1.description d1.children,
       Document d2.lang d2.title d2.description d2.children])
    ∧ (∀ (ds : List DocArgs) (d : DocArgs), (renderDocuments (ds ++ [d])).getLast? =
        some (Document d.lang d.title d.description d.children)) := by
  constructor
  · intro d1 d2
    rfl
  · intro ds d
    rw [renderDocuments, List.map_append, List.map_singleton]
    rw [List.getLast?_append_cons]
    rfl

/-- Witness for claim C9: two heading-bearing documents rendered in
sequence each produce their standalone result. -/
theorem heading_rank_isolation_witness :
    renderDocuments
        [⟨"en-US", "one", "first", headingInps [1, 2]⟩,
         ⟨"en-US", "two", "second", headingInps [1, 2]⟩] =
      [Document "en-US" "one" "first" (headingInps [1, 2]),
       Document "en-US" "two" "second" (headingInps [1, 2])]
    ∧ (renderDocuments ([⟨"en-US", "one", "first", []⟩] ++ [⟨"sv-SE", "två", "andra", []⟩])).getLast? =
        some (Document "sv-SE" "två" "andra" []) :=
  ⟨heading_rank_isolation.1 _ _, heading_rank_isolation.2 _ _⟩

/-- Claim C10: a `Body` followed by a `Head` — the right pair in the
wrong order — is not recognized as a head/body pair: the normalization
wraps both in a synthesized body, and construction fails with the
non-flow-inside-body `InvalidContentModel` error, since `Head` and
`Body` both have empty content-category sets. -/
theorem body_head_wrong_order :
    normalizeChildren [.elem .body {} [], .elem .head {} []] =
      [synthHead, .elem .body {} [.elem .body {} [], .elem .head {} []]]
    ∧ Document "en-US" "test" "testing" [.elem .body {} [], .elem .head {} []]
        = .error (.InvalidContentModel "Cannot render non-flow content inside <body>")
    ∧ contentCategoriesOf .head {} ["html", "body"] = []
    ∧ contentCategoriesOf .body {} ["html", "body"] = [] :=
  ⟨rfl, rfl, rfl, rfl⟩

end Elements
